import Mathlib

/-!
A shallow embedding, in Lean 4, of the task-manager program `exersiceAI.py`
(classes `Task` and `TaskManager`), together with theorems settling the
specification claims about it.

Modelling conventions:
* Python `None` for `priority` / `due_date` is `Option.none`; a Python string
  value `s` is `some s`.  Python truthiness of such an optional string
  (`if self.priority:`) is `pyTruthy`: `none` and `some ""` are falsy.
* `datetime.now()` is passed in explicitly as a `now : String` argument.
* Machine-level file I/O is passed in as an explicit outcome value
  (file content already read / a read or write error / file-not-found),
  since the repository's code only ever does whole-file reads and writes.
* A raised Python exception that escapes an operation is `Except.error`;
  operations whose source wraps the body in `try/except Exception` are the
  `match`-wrapped versions of an `..._attempt` function that can error.
* Python's `sorted(..., key=k, reverse=r)` (a stable sort) is modelled by a
  Bool-comparator insertion sort `insertionSortB`, ascending on the key, with
  `reverse=True` using the flipped comparator (stable descending), which is
  exactly CPython's observable behaviour.
-/

namespace TaskApp

/-- A Python exception value, as far as the claims need to distinguish them. -/
inductive PyExn where
  | ioError
  | parseError
  | stopIteration
  deriving DecidableEq

/-- The `Task` object of `exersiceAI.py` (fields set in `Task.__init__`,
`id` assigned later by the manager). -/
structure Task where
  id : Int
  title : String
  completed : Bool
  created_at : String
  priority : Option String
  due_date : Option String
  tags : List String
  deriving DecidableEq

/-- Python truthiness of an optional string: `None` and `""` are falsy. -/
def pyTruthy : Option String → Bool
  | none => false
  | some s => if s = "" then false else true

/-- `Task.mark_completed`: sets `completed = True`. -/
def Task.mark_completed (t : Task) : Task := { t with completed := true }

/-- `Task.add_tag`: `if tag and tag not in self.tags: self.tags.append(tag)`. -/
def Task.add_tag (t : Task) (tag : String) : Task :=
  if tag ≠ "" ∧ tag ∉ t.tags then { t with tags := t.tags ++ [tag] } else t

/-- The generic key-value record written to / read from JSON
(`Task.to_dict` output).  `priority = none` / `due_date = none` model the key
being absent from the dictionary. -/
structure TaskRecord where
  id : Int
  title : String
  completed : Bool
  created_at : String
  tags : List String
  priority : Option String
  due_date : Option String
  deriving DecidableEq

/-- `Task.to_dict`: always writes `id`, `title`, `completed`, `created_at`,
`tags`; writes the `priority` and `due_date` keys only when the field is
truthy (`if self.priority:` / `if self.due_date:`). -/
def Task.to_dict (t : Task) : TaskRecord :=
  { id := t.id
    title := t.title
    completed := t.completed
    created_at := t.created_at
    tags := t.tags
    priority := if pyTruthy t.priority then t.priority else none
    due_date := if pyTruthy t.due_date then t.due_date else none }

/-- `Task.from_dict`: builds the task from the record; `data.get("priority")`
and `data.get("due_date")` give `None` for an absent key, `data.get("tags",
[])` gives `[]`. -/
def Task.from_dict (r : TaskRecord) : Task :=
  { id := r.id
    title := r.title
    completed := r.completed
    created_at := r.created_at
    priority := r.priority
    due_date := r.due_date
    tags := r.tags }

/-- The `TaskManager` state: the owned, ordered task list.  The fixed
`filename` field of the source only names the backing file; file contents are
passed to the operations explicitly. -/
structure TaskManager where
  tasks : List Task
  deriving DecidableEq

/-- Python `max` over a list of ints (the `[]` value is never used: the source
guards the empty case before calling `max`). -/
def pyMax : List Int → Int
  | [] => 0
  | x :: xs => xs.foldl max x

/-- `TaskManager._generate_id`: `1` if there are no tasks, otherwise
`max(task.id for task in self.tasks) + 1`. -/
def TaskManager.generate_id (m : TaskManager) : Int :=
  if m.tasks = [] then 1 else pyMax (m.tasks.map Task.id) + 1

/-- `TaskManager.add_task`: constructs a `Task` (with `completed = False`,
`created_at = now`, no tags), assigns it `_generate_id()`, appends it and
returns it. -/
def TaskManager.add_task (m : TaskManager) (title : String)
    (priority due_date : Option String) (now : String) : TaskManager × Task :=
  let t : Task :=
    { id := m.generate_id
      title := title
      completed := false
      created_at := now
      priority := priority
      due_date := due_date
      tags := [] }
  ({ tasks := m.tasks ++ [t] }, t)

/-- Deletes the first task with the given id, `none` when there is none
(the loop body of `TaskManager.delete_task`). -/
def deleteFirstTask (i : Int) : List Task → Option (List Task)
  | [] => none
  | t :: ts =>
      if t.id = i then some ts else (deleteFirstTask i ts).map (t :: ·)

/-- `TaskManager.delete_task`: removes the first task whose id matches and
returns `True`, otherwise returns `False`. -/
def TaskManager.delete_task (m : TaskManager) (i : Int) : TaskManager × Bool :=
  match deleteFirstTask i m.tasks with
  | some ts => ({ tasks := ts }, true)
  | none => (m, false)

-- Basic facts about `pyMax` and `generate_id`.

theorem le_foldl_max (b : Int) : ∀ (l : List Int), b ≤ l.foldl max b := by
  intro l
  induction l generalizing b with
  | nil => exact le_refl b
  | cons x xs ih =>
      calc b ≤ max b x := le_max_left b x
        _ ≤ (xs).foldl max (max b x) := ih (max b x)

theorem foldl_max_mono {a b : Int} (h : a ≤ b) :
    ∀ (l : List Int), l.foldl max a ≤ l.foldl max b := by
  intro l
  induction l generalizing a b with
  | nil => exact h
  | cons x xs ih => exact ih (max_le_max h (le_refl x))

theorem mem_le_foldl_max :
    ∀ (l : List Int) (b : Int) {x : Int}, x ∈ l → x ≤ l.foldl max b := by
  intro l
  induction l with
  | nil => intro b x hx; cases hx
  | cons a as ih =>
      intro b x hx
      rcases List.mem_cons.mp hx with h | h
      · subst h
        calc x ≤ max b x := le_max_right b x
          _ ≤ as.foldl max (max b x) := le_foldl_max _ as
      · exact ih (max b a) h

theorem mem_le_pyMax {x : Int} {l : List Int} (hx : x ∈ l) : x ≤ pyMax l := by
  cases l with
  | nil => cases hx
  | cons a as =>
      rcases List.mem_cons.mp hx with h | h
      · subst h; exact le_foldl_max x as
      · exact mem_le_foldl_max as a h

theorem pyMax_append_singleton (x : Int) :
    ∀ (l : List Int), l ≠ [] → pyMax (l ++ [x]) = max (pyMax l) x := by
  intro l hl
  cases l with
  | nil => exact absurd rfl hl
  | cons a as =>
      show (as ++ [x]).foldl max a = max (as.foldl max a) x
      rw [List.foldl_append]
      rfl

/-- Every task id currently present is strictly below `_generate_id()`. -/
theorem id_lt_generate_id {m : TaskManager} {t : Task} (ht : t ∈ m.tasks) :
    t.id < m.generate_id := by
  unfold TaskManager.generate_id
  have hne : m.tasks ≠ [] := by
    intro h; rw [h] at ht; cases ht
  rw [if_neg hne]
  have : t.id ≤ pyMax (m.tasks.map Task.id) :=
    mem_le_pyMax (List.mem_map_of_mem Task.id ht)
  omega

/-- Appending a task whose id is the current `_generate_id()` bumps
`_generate_id()` to exactly one more. -/
theorem generate_id_append {m : TaskManager} {t : Task}
    (h : t.id = m.generate_id) :
    TaskManager.generate_id { tasks := m.tasks ++ [t] } = t.id + 1 := by
  rcases eq_or_ne m.tasks [] with hnil | hne
  · simp [TaskManager.generate_id, hnil, pyMax]
  · have h2 : m.tasks ++ [t] ≠ [] := by simp
    unfold TaskManager.generate_id
    rw [if_neg h2, List.map_append, List.map_cons, List.map_nil,
      pyMax_append_singleton _ _ (by simp [hne])]
    unfold TaskManager.generate_id at h
    rw [if_neg hne] at h
    rw [h, max_eq_right (by omega)]

-- Python string primitives used by the program.

/-- Python `str.lower()`; character case-folding as in `Char.toLower`
(the theorems that mention case-insensitivity are stated against this same
fold on both sides). -/
def pyLower (s : String) : String := ⟨s.data.map Char.toLower⟩

/-- Lexicographic (code-point) `<` on char lists, Python's string `<`. -/
def listLtB : List Char → List Char → Bool
  | [], [] => false
  | [], _ :: _ => true
  | _ :: _, [] => false
  | a :: as, b :: bs =>
      if a < b then true
      else if b < a then false
      else listLtB as bs

/-- Python string `<`. -/
def strLtB (a b : String) : Bool := listLtB a.data b.data

/-- Python string `<=` (total order: `a <= b` iff `not (b < a)`). -/
def strLeB (a b : String) : Bool := !(strLtB b a)

theorem listLtB_asymm :
    ∀ {x y : List Char}, listLtB x y = true → listLtB y x = true → False := by
  intro x
  induction x with
  | nil => intro y h1 h2; cases y <;> simp [listLtB] at h1 h2
  | cons a as ih =>
      intro y h1 h2
      cases y with
      | nil => simp [listLtB] at h1
      | cons b bs =>
          simp only [listLtB] at h1 h2
          split_ifs at h1 h2 with hab hba hba
          · exact absurd hab (lt_asymm hba)
          · exact ih h1 h2

theorem listLtB_conn :
    ∀ {x y : List Char}, listLtB x y = false → listLtB y x = false → x = y := by
  intro x
  induction x with
  | nil => intro y h1 _; cases y <;> simp [listLtB] at h1 ⊢
  | cons a as ih =>
      intro y h1 h2
      cases y with
      | nil => simp [listLtB] at h2
      | cons b bs =>
          simp only [listLtB] at h1 h2
          split_ifs at h1 h2 with hab hba hba
          have hcb : a = b := le_antisymm (not_lt.mp hba) (not_lt.mp hab)
          rw [hcb, ih h1 h2]

theorem listLtB_trans :
    ∀ {x y z : List Char}, listLtB x y = true → listLtB y z = true →
      listLtB x z = true := by
  intro x
  induction x with
  | nil =>
      intro y z h1 h2
      cases y with
      | nil => simpa [listLtB] using h1
      | cons b bs =>
          cases z with
          | nil => simpa [listLtB] using h2
          | cons c cs => simp [listLtB]
  | cons a as ih =>
      intro y z h1 h2
      cases y with
      | nil => simpa [listLtB] using h1
      | cons b bs =>
          cases z with
          | nil => simpa [listLtB] using h2
          | cons c cs =>
              simp only [listLtB] at h1 h2 ⊢
              rcases lt_trichotomy a b with hab | hab | hab
              · rcases lt_trichotomy b c with hbc | hbc | hbc
                · rw [if_pos (lt_trans hab hbc)]
                · subst hbc; rw [if_pos hab]
                · rw [if_neg (lt_asymm hbc), if_pos hbc] at h2; cases h2
              · subst hab
                rcases lt_trichotomy a c with hac | hac | hac
                · rw [if_pos hac]
                · subst hac
                  rw [if_neg (lt_irrefl a), if_neg (lt_irrefl a)] at h1 h2 ⊢
                  exact ih h1 h2
                · rw [if_neg (lt_asymm hac), if_pos hac] at h2; cases h2
              · rw [if_neg (lt_asymm hab), if_pos hab] at h1; cases h1

theorem strLeB_total (a b : String) : strLeB a b = true ∨ strLeB b a = true := by
  unfold strLeB strLtB
  rcases h1 : listLtB b.data a.data with _ | _
  · left; simp
  · right
    rcases h2 : listLtB a.data b.data with _ | _
    · simp
    · exact absurd (listLtB_asymm h1 h2) (fun f => f)

theorem strLeB_trans {a b c : String} (h1 : strLeB a b = true)
    (h2 : strLeB b c = true) : strLeB a c = true := by
  unfold strLeB strLtB at *
  simp only [Bool.not_eq_true'] at h1 h2 ⊢
  by_contra hca
  simp only [Bool.not_eq_false] at hca
  rcases h3 : listLtB a.data b.data with _ | _
  · rcases h4 : listLtB b.data a.data with _ | _
    · have := listLtB_conn h3 h4
      rw [this] at hca
      rw [hca] at h2
      cases h2
    · rw [h4] at h1; cases h1
  · have := listLtB_trans hca h3
    rw [this] at h2
    cases h2

/-- The whitespace characters removed by Python `str.strip()`. -/
def isPySpace (c : Char) : Bool :=
  decide (c.toNat ∈ ([9, 10, 11, 12, 13, 28, 29, 30, 31, 32, 133, 160, 5760,
    8192, 8193, 8194, 8195, 8196, 8197, 8198, 8199, 8200, 8201, 8202,
    8232, 8233, 8239, 8287, 12288] : List Nat))

/-- Python `str.strip()`: drop whitespace from both ends. -/
def pyStrip (s : String) : String :=
  ⟨((s.data.dropWhile isPySpace).reverse.dropWhile isPySpace).reverse⟩

/-- Splitting a char list on a separator, Python `str.split(sep)`
(always at least one chunk; adjacent separators give empty chunks). -/
def splitCh (sep : Char) : List Char → List (List Char)
  | [] => [[]]
  | c :: cs =>
      match splitCh sep cs with
      | [] => [[]]
      | g :: gs => if c = sep then [] :: g :: gs else (c :: g) :: gs

/-- Python `s.split(sep)` for a one-character separator. -/
def pySplit (s : String) (sep : Char) : List String :=
  (splitCh sep s.data).map (fun l => ⟨l⟩)

/-- Joining char chunks with a separator (Python `sep.join`). -/
def joinCh (sep : Char) : List (List Char) → List Char
  | [] => []
  | [x] => x
  | x :: y :: ys => x ++ sep :: joinCh sep (y :: ys)

/-- Python `sep.join(strings)` for a one-character separator. -/
def pyJoin (sep : Char) (l : List String) : String :=
  ⟨joinCh sep (l.map String.data)⟩

theorem splitCh_no_sep {sep : Char} :
    ∀ {l : List Char}, (∀ c ∈ l, c ≠ sep) → splitCh sep l = [l] := by
  intro l
  induction l with
  | nil => intro _; rfl
  | cons c cs ih =>
      intro h
      have hc : c ≠ sep := h c (List.mem_cons_self c cs)
      have hcs := ih (fun x hx => h x (List.mem_cons_of_mem c hx))
      simp only [splitCh, hcs]
      rw [if_neg hc]

theorem splitCh_ne_nil {sep : Char} : ∀ (l : List Char), splitCh sep l ≠ [] := by
  intro l
  induction l with
  | nil => intro h; cases h
  | cons c cs ih =>
      intro h
      simp only [splitCh] at h
      revert h
      match hs : splitCh sep cs with
      | [] => intro _; exact ih hs
      | g :: gs =>
          intro h
          split_ifs at h <;> cases h

theorem splitCh_append_sep {sep : Char} :
    ∀ {l rest : List Char}, (∀ c ∈ l, c ≠ sep) →
      splitCh sep (l ++ sep :: rest) = l :: splitCh sep rest := by
  intro l rest
  induction l with
  | nil =>
      intro _
      show splitCh sep (sep :: rest) = [] :: splitCh sep rest
      simp only [splitCh]
      match hs : splitCh sep rest with
      | [] => exact absurd hs (splitCh_ne_nil rest)
      | g :: gs => simp
  | cons c cs ih =>
      intro h
      have hc : c ≠ sep := h c (List.mem_cons_self c cs)
      have hcs := ih (fun x hx => h x (List.mem_cons_of_mem c hx))
      show splitCh sep (c :: (cs ++ sep :: rest)) = (c :: cs) :: splitCh sep rest
      simp only [splitCh, hcs]
      rw [if_neg hc]

theorem splitCh_joinCh {sep : Char} :
    ∀ {ls : List (List Char)}, ls ≠ [] → (∀ x ∈ ls, ∀ c ∈ x, c ≠ sep) →
      splitCh sep (joinCh sep ls) = ls := by
  intro ls
  induction ls with
  | nil => intro h _; exact absurd rfl h
  | cons x xs ih =>
      intro _ hsep
      cases xs with
      | nil =>
          show splitCh sep x = [x]
          exact splitCh_no_sep (hsep x (List.mem_cons_self x []))
      | cons y ys =>
          show splitCh sep (x ++ sep :: joinCh sep (y :: ys)) = x :: y :: ys
          rw [splitCh_append_sep (hsep x (List.mem_cons_self x (y :: ys)))]
          rw [ih (by simp) (fun z hz => hsep z (List.mem_cons_of_mem x hz))]

theorem strData_mk (l : List Char) : (⟨l⟩ : String).data = l := rfl

theorem strMk_data (s : String) : (⟨s.data⟩ : String) = s := rfl

/-- Join-then-split round trip for nonempty lists of separator-free strings. -/
theorem pySplit_pyJoin {sep : Char} {tags : List String} (hne : tags ≠ [])
    (hsep : ∀ t ∈ tags, ∀ c ∈ t.data, c ≠ sep) :
    pySplit (pyJoin sep tags) sep = tags := by
  unfold pySplit pyJoin
  rw [strData_mk]
  rw [splitCh_joinCh (by simpa using hne)
    (by intro x hx; rcases List.mem_map.mp hx with ⟨t, ht, rfl⟩; exact hsep t ht)]
  rw [List.map_map]
  have hid : ((fun l => (⟨l⟩ : String)) ∘ String.data) = id := funext fun _ => rfl
  rw [hid, List.map_id]

/-- A nonempty first chunk makes the join nonempty. -/
theorem pyJoin_ne_empty {sep : Char} {t : String} {ts : List String}
    (h : t.data ≠ []) : pyJoin sep (t :: ts) ≠ "" := by
  unfold pyJoin
  intro hcontra
  have : joinCh sep ((t :: ts).map String.data) = [] := congrArg String.data hcontra
  cases ts with
  | nil => exact h this
  | cons y ys =>
      simp only [List.map_cons, joinCh] at this
      rcases List.append_eq_nil.mp this with ⟨h1, _⟩
      exact h h1

-- Python substring containment (`needle in haystack`).

/-- Bool prefix test on char lists. -/
def startsWithCh : List Char → List Char → Bool
  | [], _ => true
  | _ :: _, [] => false
  | a :: as, b :: bs => a == b && startsWithCh as bs

/-- Python `needle in haystack` on strings, via char lists: some suffix of the
haystack starts with the needle. -/
def containsCh (n : List Char) : List Char → Bool
  | [] => startsWithCh n []
  | c :: t => startsWithCh n (c :: t) || containsCh n t

theorem startsWithCh_iff :
    ∀ {n h : List Char}, startsWithCh n h = true ↔ n <+: h := by
  intro n
  induction n with
  | nil => intro h; simp [startsWithCh, List.nil_prefix]
  | cons a as ih =>
      intro h
      cases h with
      | nil =>
          simp only [startsWithCh]
          constructor
          · intro hf; cases hf
          · intro hp
            rcases hp with ⟨t, ht⟩
            cases ht
      | cons b bs =>
          simp only [startsWithCh, Bool.and_eq_true, beq_iff_eq]
          rw [ih]
          constructor
          · rintro ⟨rfl, ⟨t, rfl⟩⟩
            exact ⟨t, rfl⟩
          · intro hp
            rcases hp with ⟨t, ht⟩
            injection ht with h1 h2
            exact ⟨h1, ⟨t, h2⟩⟩

theorem containsCh_iff :
    ∀ {n h : List Char}, containsCh n h = true ↔ n <:+: h := by
  intro n h
  induction h with
  | nil =>
      simp only [containsCh, startsWithCh_iff]
      constructor
      · intro hp; exact hp.isInfix
      · intro hi
        rcases hi with ⟨s, t, hst⟩
        rcases List.append_eq_nil.mp hst with ⟨h1, _⟩
        rcases List.append_eq_nil.mp h1 with ⟨_, h3⟩
        rw [h3]
  | cons c t ih =>
      simp only [containsCh, Bool.or_eq_true, startsWithCh_iff, ih]
      exact (List.infix_cons_iff).symm

-- A stable, comparator-based insertion sort modelling Python `sorted`.

/-- Insert `a` into `l` before the first element `b` with `le a b`. -/
def orderedInsertB {α : Type} (le : α → α → Bool) (a : α) : List α → List α
  | [] => [a]
  | b :: l => if le a b then a :: b :: l else b :: orderedInsertB le a l

/-- Stable insertion sort with a Bool comparator: the behaviour of Python
`sorted(l, key=k)` when `le a b` is `k(a) <= k(b)`, and of
`sorted(l, key=k, reverse=True)` when `le a b` is `k(b) <= k(a)`. -/
def insertionSortB {α : Type} (le : α → α → Bool) : List α → List α
  | [] => []
  | a :: l => orderedInsertB le a (insertionSortB le l)

theorem orderedInsertB_perm {α : Type} (le : α → α → Bool) (a : α) :
    ∀ (l : List α), List.Perm (orderedInsertB le a l) (a :: l) := by
  intro l
  induction l with
  | nil => exact List.Perm.refl _
  | cons b t ih =>
      simp only [orderedInsertB]
      split_ifs
      · exact List.Perm.refl _
      · exact (ih.cons b).trans (List.Perm.swap a b t)

theorem insertionSortB_perm {α : Type} (le : α → α → Bool) :
    ∀ (l : List α), List.Perm (insertionSortB le l) l := by
  intro l
  induction l with
  | nil => exact List.Perm.refl _
  | cons a t ih =>
      exact (orderedInsertB_perm le a (insertionSortB le t)).trans (ih.cons a)

theorem mem_orderedInsertB {α : Type} {le : α → α → Bool} {a x : α}
    {l : List α} (hx : x ∈ orderedInsertB le a l) : x = a ∨ x ∈ l := by
  have := (orderedInsertB_perm le a l).mem_iff.mp hx
  simpa using this

theorem pairwise_orderedInsertB {α : Type} {le : α → α → Bool}
    (htot : ∀ a b, le a b = true ∨ le b a = true)
    (htrans : ∀ a b c, le a b = true → le b c = true → le a c = true)
    (a : α) :
    ∀ {l : List α}, List.Pairwise (fun x y => le x y = true) l →
      List.Pairwise (fun x y => le x y = true) (orderedInsertB le a l) := by
  intro l
  induction l with
  | nil => intro _; exact List.pairwise_singleton _ a
  | cons b t ih =>
      intro hp
      rcases List.pairwise_cons.mp hp with ⟨hb, ht⟩
      simp only [orderedInsertB]
      split_ifs with hab
      · refine List.pairwise_cons.mpr ⟨?_, hp⟩
        intro x hx
        rcases List.mem_cons.mp hx with rfl | hxt
        · exact hab
        · exact htrans a b x hab (hb x hxt)
      · refine List.pairwise_cons.mpr ⟨?_, ih ht⟩
        intro x hx
        rcases mem_orderedInsertB hx with rfl | hxt
        · rcases htot x b with h | h
          · exact absurd h hab
          · exact h
        · exact hb x hxt

theorem pairwise_insertionSortB {α : Type} {le : α → α → Bool}
    (htot : ∀ a b, le a b = true ∨ le b a = true)
    (htrans : ∀ a b c, le a b = true → le b c = true → le a c = true) :
    ∀ (l : List α), List.Pairwise (fun x y => le x y = true)
      (insertionSortB le l) := by
  intro l
  induction l with
  | nil => exact List.Pairwise.nil
  | cons a t ih => exact pairwise_orderedInsertB htot htrans a ih

theorem orderedInsertB_map {α : Type} {le : α → α → Bool} {f : α → α}
    (hf : ∀ a b, le (f a) (f b) = le a b) (a : α) :
    ∀ (l : List α),
      orderedInsertB le (f a) (l.map f) = (orderedInsertB le a l).map f := by
  intro l
  induction l with
  | nil => rfl
  | cons b t ih =>
      simp only [List.map_cons, orderedInsertB, hf a b]
      split_ifs
      · rfl
      · rw [List.map_cons, ← ih]

theorem insertionSortB_map {α : Type} {le : α → α → Bool} {f : α → α}
    (hf : ∀ a b, le (f a) (f b) = le a b) :
    ∀ (l : List α),
      insertionSortB le (l.map f) = (insertionSortB le l).map f := by
  intro l
  induction l with
  | nil => rfl
  | cons a t ih =>
      simp only [List.map_cons, insertionSortB, ih]
      exact orderedInsertB_map hf a (insertionSortB le t)

-- The sort criteria of `TaskManager.sort_tasks`.

/-- `sorted(tasks, key=..., reverse=reverse)`: stable ascending in the
comparator, or stable descending when `reverse` is set. -/
def pySorted {α : Type} (le : α → α → Bool) (reverse : Bool)
    (l : List α) : List α :=
  if reverse then insertionSortB (fun a b => le b a) l else insertionSortB le l

/-- The priority ranking dict of `sort_tasks`:
`{"високий": 3, "середній": 2, "низький": 1, None: 0}` read with
`.get(t.priority, 0)`, so every unrecognized value also ranks `0`. -/
def priority_order : Option String → Nat
  | none => 0
  | some s =>
      if s = "високий" then 3
      else if s = "середній" then 2
      else if s = "низький" then 1
      else 0

/-- The due-date sort key: `t.due_date if t.due_date else "9999-99-99"`
(note that Python truthiness sends an empty-string due date to the
sentinel too). -/
def dueKey (t : Task) : String :=
  match t.due_date with
  | some d => if d = "" then "9999-99-99" else d
  | none => "9999-99-99"

/-- `TaskManager.sort_tasks`: dispatch on the sort criterion string; an
unknown criterion returns the input unchanged.  The optional `tasks`
argument defaults to the manager's collection. -/
def TaskManager.sort_tasks (m : TaskManager) (tasks : Option (List Task))
    (by_ : String) (reverse : Bool) : List Task :=
  let ts := match tasks with
    | none => m.tasks
    | some l => l
  if by_ = "id" then
    pySorted (fun a b => decide (a.id ≤ b.id)) reverse ts
  else if by_ = "title" then
    pySorted (fun a b => strLeB (pyLower a.title) (pyLower b.title)) reverse ts
  else if by_ = "priority" then
    pySorted (fun a b =>
      decide (priority_order a.priority ≤ priority_order b.priority)) reverse ts
  else if by_ = "due_date" then
    pySorted (fun a b => strLeB (dueKey a) (dueKey b)) reverse ts
  else if by_ = "created_at" then
    pySorted (fun a b => strLeB a.created_at b.created_at) reverse ts
  else ts

/-- A coarse shape test for `YYYY-MM-DD` date strings: four digits, a dash,
then a month whose first digit is `0` or `1`.  Every real `YYYY-MM-DD` string
satisfies it. -/
def dateShape (d : String) : Bool :=
  match d.data with
  | c0 :: c1 :: c2 :: c3 :: c4 :: c5 :: _ =>
      decide ('0' ≤ c0 ∧ c0 ≤ '9' ∧ '0' ≤ c1 ∧ c1 ≤ '9' ∧ '0' ≤ c2 ∧ c2 ≤ '9'
        ∧ '0' ≤ c3 ∧ c3 ≤ '9' ∧ c4 = '-' ∧ (c5 = '0' ∨ c5 = '1'))
  | _ => false

theorem listLtB_step_nine {c : Char} {l sl : List Char} (hc : c ≤ '9')
    (hl : listLtB l sl = true) : listLtB (c :: l) ('9' :: sl) = true := by
  simp only [listLtB]
  split_ifs with h1 h2
  · rfl
  · exact absurd (lt_of_le_of_lt hc h2) (lt_irrefl c)
  · exact hl

theorem listLtB_step_eq {c : Char} {l sl : List Char}
    (hl : listLtB l sl = true) : listLtB (c :: l) (c :: sl) = true := by
  simp only [listLtB]
  rw [if_neg (lt_irrefl c), if_neg (lt_irrefl c)]
  exact hl

/-- Every string of date shape is strictly below the `"9999-99-99"`
sentinel in Python string order. -/
theorem dateShape_lt_sentinel {d : String} (h : dateShape d = true) :
    strLtB d "9999-99-99" = true := by
  unfold strLtB
  unfold dateShape at h
  revert h
  match hd : d.data with
  | [] => intro h; cases h
  | [c0] => intro h; cases h
  | [c0, c1] => intro h; cases h
  | [c0, c1, c2] => intro h; cases h
  | [c0, c1, c2, c3] => intro h; cases h
  | [c0, c1, c2, c3, c4] => intro h; cases h
  | c0 :: c1 :: c2 :: c3 :: c4 :: c5 :: rest =>
      intro h
      rcases of_decide_eq_true h with
        ⟨_, h0, _, h1, _, h2, _, h3, rfl, h5⟩
      show listLtB (c0 :: c1 :: c2 :: c3 :: '-' :: c5 :: rest)
        ('9' :: '9' :: '9' :: '9' :: '-' :: '9' :: '9' :: '-' :: '9' :: '9' :: []) = true
      apply listLtB_step_nine h0
      apply listLtB_step_nine h1
      apply listLtB_step_nine h2
      apply listLtB_step_nine h3
      apply listLtB_step_eq
      have hc5 : c5 < '9' := by
        rcases h5 with rfl | rfl <;> decide
      simp only [listLtB]
      rw [if_pos hc5]

/-- `TaskManager.search_tasks`: empty keyword returns `[]`; otherwise a
case-insensitive substring filter on the title. -/
def TaskManager.search_tasks (m : TaskManager) (keyword : String) :
    List Task :=
  if keyword = "" then []
  else
    m.tasks.filter (fun t =>
      containsCh (pyLower keyword).data (pyLower t.title).data)

-- Persistence: save / load.

/-- The JSON array written by `save_tasks` / JSON `export_tasks`:
`[task.to_dict() for task in self.tasks]`. -/
def save_data (m : TaskManager) : List TaskRecord :=
  m.tasks.map Task.to_dict

/-- `TaskManager.save_tasks`: no exception handler in the source; a write
failure (modelled by `writeErr`) propagates to the caller, otherwise the
record array is written. -/
def TaskManager.save_tasks (m : TaskManager) (writeErr : Bool) :
    Except PyExn (List TaskRecord) :=
  if writeErr then Except.error PyExn.ioError else Except.ok (save_data m)

/-- The outcome of reading the backing file in `load_tasks`:
the file is missing, reading/parsing raises, or a record array is parsed. -/
inductive LoadOutcome where
  | fileNotFound
  | failure (e : PyExn)
  | content (data : List TaskRecord)

/-- `TaskManager.load_tasks`: only `FileNotFoundError` is caught (returning
`False` and leaving the collection alone); a successful parse replaces the
collection and returns `True`; any other error propagates. -/
def TaskManager.load_tasks (m : TaskManager) (r : LoadOutcome) :
    Except PyExn (TaskManager × Bool) :=
  match r with
  | LoadOutcome.fileNotFound => Except.ok (m, false)
  | LoadOutcome.failure e => Except.error e
  | LoadOutcome.content d =>
      Except.ok ({ tasks := d.map Task.from_dict }, true)

-- Export.

/-- The CSV header row written by `export_tasks`. -/
def csv_header : List String :=
  ["ID", "Назва", "Статус", "Пріоритет", "Термін виконання", "Створено", "Теги"]

/-- One CSV data row of `export_tasks`: id, title, status label, priority or
`""`, due date or `""`, creation time, tags joined with commas. -/
def csv_row (t : Task) : List String :=
  [toString t.id,
   t.title,
   if t.completed then "Виконано" else "Активно",
   (t.priority.getD ""),
   (t.due_date.getD ""),
   t.created_at,
   pyJoin ',' t.tags]

/-- The full CSV file written by `export_tasks` (header, then one row per
task), as a list of rows: the `csv` module's quoting makes `writer.writerow` /
`csv.reader` mutually inverse at row level, so the file is modelled as its
row structure. -/
def csv_rows (m : TaskManager) : List (List String) :=
  csv_header :: m.tasks.map csv_row

/-- What a successful export writes. -/
inductive ExportOut where
  | jsonFile (d : List TaskRecord)
  | csvFile (rows : List (List String))
  deriving DecidableEq

/-- The body of `export_tasks` inside its `try:` — lowercase the format,
write JSON or CSV (a write failure raises), print and report unsupported
formats as `False` without touching any file. -/
def export_attempt (m : TaskManager) (format : String) (writeErr : Bool) :
    Except PyExn (Option ExportOut × Bool) :=
  if pyLower format = "json" then
    if writeErr then Except.error PyExn.ioError
    else Except.ok (some (ExportOut.jsonFile (save_data m)), true)
  else if pyLower format = "csv" then
    if writeErr then Except.error PyExn.ioError
    else Except.ok (some (ExportOut.csvFile (csv_rows m)), true)
  else Except.ok (none, false)

/-- `TaskManager.export_tasks`: the `try/except Exception` wrapper around
`export_attempt`; it never mutates `self.tasks`, so the unchanged manager is
returned alongside the result. -/
def TaskManager.export_tasks (m : TaskManager) (format : String)
    (writeErr : Bool) : TaskManager × (Option ExportOut × Bool) :=
  match export_attempt m format writeErr with
  | Except.ok r => (m, r)
  | Except.error _ => (m, (none, false))

-- Import.

/-- Processing of one CSV data row inside `import_tasks`: rows with fewer
than 6 columns are skipped; otherwise `add_task(row[1], row[3] or None,
row[4] or None)`, then `mark_completed()` when the status cell reads
`"Виконано"`, then `add_tag(tag.strip())` for the comma-split optional 7th
cell.  The Python code appends the fresh task first and then mutates that
same object, which leaves the same final state as appending the fully-built
task. -/
def import_row (m : TaskManager) (now : String) (row : List String) :
    TaskManager :=
  if 6 ≤ row.length then
    let title := row.getD 1 ""
    let completed := row.getD 2 "" = "Виконано"
    let priority := if row.getD 3 "" = "" then none else some (row.getD 3 "")
    let due_date := if row.getD 4 "" = "" then none else some (row.getD 4 "")
    let tags := if 6 < row.length ∧ row.getD 6 "" ≠ ""
      then pySplit (row.getD 6 "") ',' else []
    let t0 := (m.add_task title priority due_date now).2
    let t1 := if completed then t0.mark_completed else t0
    let t2 := tags.foldl (fun t tg => t.add_tag (pyStrip tg)) t1
    { tasks := m.tasks ++ [t2] }
  else m

/-- The CSV import loop over the data rows. -/
def import_rows (m : TaskManager) (now : String) :
    List (List String) → TaskManager
  | [] => m
  | row :: rest => import_rows (import_row m now row) now rest

/-- The renumbering loop of JSON import: `task.id = next_id; next_id += 1`
over the freshly parsed tasks. -/
def renumberFrom (g : Int) : List Task → List Task
  | [] => []
  | t :: ts => { t with id := g } :: renumberFrom (g + 1) ts

/-- What `import_tasks` finds when it opens and reads the file, per format
branch.  `errAfter` on CSV rows models the `csv` reader raising after having
yielded those rows (e.g. an unterminated quoted field at end of file) —
mid-iteration failure is the only way the loop can stop early. -/
inductive ImportFile where
  | jsonParsed (ds : List TaskRecord)
  | jsonBad (e : PyExn)
  | csvRows (rows : List (List String)) (errAfter : Bool)
  | csvBad (e : PyExn)

/-- The body of `import_tasks` inside its `try:`.  The manager state is
threaded alongside the exception outcome because the CSV loop mutates
`self.tasks` row by row before a late reader error is raised.  A file whose
parse outcome does not match the requested format stands for a parse error
in that branch. -/
def import_attempt (m : TaskManager) (format : String) (file : ImportFile)
    (now : String) : TaskManager × Except PyExn Bool :=
  if pyLower format = "json" then
    match file with
    | ImportFile.jsonParsed ds =>
        ({ tasks := m.tasks ++
            renumberFrom m.generate_id (ds.map Task.from_dict) },
          Except.ok true)
    | ImportFile.jsonBad e => (m, Except.error e)
    | _ => (m, Except.error PyExn.parseError)
  else if pyLower format = "csv" then
    match file with
    | ImportFile.csvRows [] _ => (m, Except.error PyExn.stopIteration)
    | ImportFile.csvRows (_hdr :: data) errAfter =>
        (import_rows m now data,
          if errAfter then Except.error PyExn.ioError else Except.ok true)
    | ImportFile.csvBad e => (m, Except.error e)
    | _ => (m, Except.error PyExn.parseError)
  else (m, Except.ok false)

/-- `TaskManager.import_tasks`: the `try/except Exception` wrapper around
`import_attempt`; every raised exception is reported and converted to
`False`, with whatever state the body reached kept. -/
def TaskManager.import_tasks (m : TaskManager) (format : String)
    (file : ImportFile) (now : String) : TaskManager × Bool :=
  match import_attempt m format file now with
  | (m2, Except.ok b) => (m2, b)
  | (m2, Except.error _) => (m2, false)

-- Shared concrete demo values used by the scenario theorems.

/-- A fixed construction timestamp used in concrete scenarios. -/
def demoNow : String := "2024-05-01 10:00:00"

/-- A bare task as `add_task` would create it, for concrete scenarios. -/
def mkT (i : Int) (ti : String) : Task :=
  { id := i, title := ti, completed := false, created_at := demoNow,
    priority := none, due_date := none, tags := [] }

-- Claim C1: the id-assignment rule.

def c1m1 : TaskManager := ((TaskManager.mk []).add_task "a" none none demoNow).1

def c1m2 : TaskManager := (c1m1.add_task "b" none none demoNow).1

def c1m3 : TaskManager := (c1m2.delete_task 2).1

/-- Claim C1, as stated, is false: ids can be reused after deletion while a
task remains.  After AddTask → id 1, AddTask → id 2, DeleteTask(2), the next
AddTask re-assigns the previously used and deleted id 2 even though the task
with id 1 remains. -/
theorem claim_C1_cex :
    c1m2.tasks.map Task.id = [1, 2]
    ∧ c1m3.tasks.map Task.id = [1]
    ∧ (c1m3.add_task "c" none none demoNow).2.id = 2 := by
  decide

def c1s1 : TaskManager :=
  ((TaskManager.mk []).add_task "Buy milk" (some "високий")
    (some "2099-01-01") demoNow).1

def c1s2 : TaskManager := (c1s1.add_task "Clean" none none demoNow).1

/-- Claim C1 (amended): `add_task` assigns `id = 1 + max(existing ids)`, or
`1` on an empty collection; the new id never collides with any present id,
and more generally an id `d` is never (re)assigned while some task with id
`≥ d` remains; the claim's scenario holds (1, 2, delete 1, then 3), and ids
restart at 1 once the collection is empty again. -/
theorem claim_C1 :
    (∀ (m : TaskManager) (ti : String) (p d : Option String) (now : String),
      m.tasks = [] → (m.add_task ti p d now).2.id = 1)
    ∧ (∀ (m : TaskManager) (ti : String) (p d : Option String) (now : String),
      m.tasks ≠ [] →
        (m.add_task ti p d now).2.id = pyMax (m.tasks.map Task.id) + 1)
    ∧ (∀ (m : TaskManager) (ti : String) (p d : Option String) (now : String)
        (t : Task), t ∈ m.tasks → t.id ≠ (m.add_task ti p d now).2.id)
    ∧ (∀ (m : TaskManager) (ti : String) (p d : Option String) (now : String)
        (dlt : Int), (∃ u ∈ m.tasks, dlt ≤ u.id) →
          dlt < (m.add_task ti p d now).2.id)
    ∧ (c1s1.tasks.map Task.id = [1]
        ∧ c1s2.tasks.map Task.id = [1, 2]
        ∧ ((c1s2.delete_task 1).1.add_task "Pay bills" none none demoNow).2.id
            = 3
        ∧ (((c1s2.delete_task 1).1.delete_task 2).1.add_task "x" none none
            demoNow).2.id = 1) := by
  refine ⟨?_, ?_, ?_, ?_, by decide⟩
  · intro m ti p d now h
    simp [TaskManager.add_task, TaskManager.generate_id, h]
  · intro m ti p d now h
    simp [TaskManager.add_task, TaskManager.generate_id, h]
  · intro m ti p d now t ht
    have h1 : t.id < m.generate_id := id_lt_generate_id ht
    have h2 : (m.add_task ti p d now).2.id = m.generate_id := rfl
    omega
  · intro m ti p d now dlt ⟨u, hu, hle⟩
    have h1 : u.id < m.generate_id := id_lt_generate_id hu
    have h2 : (m.add_task ti p d now).2.id = m.generate_id := rfl
    omega

/-- Witness for `claim_C1` at concrete inputs. -/
theorem claim_C1_witness :
    ((TaskManager.mk []).add_task "t" none none demoNow).2.id = 1
    ∧ (2 : Int) < ((TaskManager.mk [mkT 1 "a", mkT 2 "b"]).add_task "t"
        none none demoNow).2.id :=
  ⟨claim_C1.1 (TaskManager.mk []) "t" none none demoNow rfl,
   claim_C1.2.2.2.1 (TaskManager.mk [mkT 1 "a", mkT 2 "b"]) "t" none none
     demoNow 2 ⟨mkT 2 "b", by decide, by decide⟩⟩

-- Claim C7: load behaviour on missing file vs other failures.

/-- Claim C7: `load_tasks` returns `False` and leaves the collection
unchanged when the backing file does not exist, and lets any other
read/parse failure propagate as an exception to the caller. -/
theorem claim_C7 :
    (∀ m : TaskManager,
      m.load_tasks LoadOutcome.fileNotFound = Except.ok (m, false))
    ∧ (∀ (m : TaskManager) (e : PyExn),
      m.load_tasks (LoadOutcome.failure e) = Except.error e) :=
  ⟨fun _ => rfl, fun _ _ => rfl⟩

-- Claim C8: add_tag.

/-- A task with no tags yet, for the blank-tag counterexample. -/
def c8task : Task := mkT 1 "t"

/-- Claim C8, as stated, is false on blank (whitespace-only) tags: `" "` is
truthy in Python, so `add_tag(" ")` appends it even though the tag is blank
(its `strip()` is empty). -/
theorem claim_C8_cex :
    pyStrip " " = "" ∧ (c8task.add_tag " ").tags = [" "] := by
  decide

/-- Claim C8 (amended): `add_tag` appends the tag unless it is already
present or is the empty string (truthiness only rejects `""`, not blank
strings); it is idempotent — the second identical `add_tag` is a no-op — and
it preserves freedom from duplicates. -/
theorem claim_C8 :
    ∀ (t : Task) (tag : String),
      (tag = "" → t.add_tag tag = t)
      ∧ (tag ∈ t.tags → t.add_tag tag = t)
      ∧ (tag ≠ "" → tag ∉ t.tags →
          (t.add_tag tag).tags = t.tags ++ [tag])
      ∧ ((t.add_tag tag).add_tag tag = t.add_tag tag)
      ∧ (t.tags.Nodup → (t.add_tag tag).tags.Nodup) := by
  intro t tag
  refine ⟨?_, ?_, ?_, ?_, ?_⟩
  · intro h; simp [Task.add_tag, h]
  · intro h; simp [Task.add_tag, h]
  · intro h1 h2; simp [Task.add_tag, h1, h2]
  · rcases Decidable.em (tag ≠ "" ∧ tag ∉ t.tags) with h | h
    · have h2 : t.add_tag tag = { t with tags := t.tags ++ [tag] } := by
        rw [Task.add_tag, if_pos h]
      rw [h2]
      rw [Task.add_tag, if_neg (fun hc => hc.2 (by simp))]
    · have h2 : t.add_tag tag = t := by rw [Task.add_tag, if_neg h]
      rw [h2, h2]
  · intro hnd
    rw [Task.add_tag]
    split_ifs with h
    · simpa [List.nodup_append] using ⟨hnd, h.2⟩
    · exact hnd

/-- Witness for `claim_C8` at concrete inputs. -/
theorem claim_C8_witness :
    (c8task.add_tag "").tags = [] ∧ (c8task.add_tag "x").tags = ["x"] :=
  ⟨by rw [(claim_C8 c8task "").1 rfl]; rfl,
   by rw [(claim_C8 c8task "x").2.2.1 (by decide) (by decide)]; rfl⟩

-- Claim C9: search_tasks.

/-- Claim C9: `search_tasks` with the empty keyword returns `[]` even on a
nonempty collection, and otherwise returns exactly the tasks whose lowered
title contains the lowered keyword as a substring (in collection order, as a
sublist). -/
theorem claim_C9 :
    ∀ (m : TaskManager) (kw : String),
      (kw = "" → m.search_tasks kw = [])
      ∧ (∀ t, t ∈ m.search_tasks kw ↔
          t ∈ m.tasks ∧ kw ≠ ""
            ∧ (pyLower kw).data <:+: (pyLower t.title).data)
      ∧ (m.search_tasks kw).Sublist m.tasks := by
  intro m kw
  refine ⟨?_, ?_, ?_⟩
  · intro h; simp [TaskManager.search_tasks, h]
  · intro t
    rcases eq_or_ne kw "" with h | h
    · simp [TaskManager.search_tasks, h]
    · rw [TaskManager.search_tasks, if_neg h]
      rw [List.mem_filter, containsCh_iff]
      constructor
      · rintro ⟨h1, h2⟩; exact ⟨h1, h, h2⟩
      · rintro ⟨h1, _, h2⟩; exact ⟨h1, h2⟩
  · rw [TaskManager.search_tasks]
    split_ifs
    · exact List.nil_sublist _
    · exact List.filter_sublist _

/-- Witness for `claim_C9` at concrete inputs. -/
theorem claim_C9_witness :
    (TaskManager.mk [mkT 1 "Buy milk"]).search_tasks "" = [] :=
  (claim_C9 (TaskManager.mk [mkT 1 "Buy milk"]) "").1 rfl

-- Claim C5: error containment of save / export / import.

/-- Claim C5, as stated, is false for `save_tasks`: it has no exception
handler, so a write failure escapes the operation as an exception instead of
becoming a success/failure result. -/
theorem claim_C5_cex :
    (TaskManager.mk []).save_tasks true = Except.error PyExn.ioError := rfl

/-- Claim C5 (amended): every error raised inside `export_tasks` or
`import_tasks` is caught by their `try/except Exception` and converted to a
`False` result — such errors never escape; `save_tasks`, however, has no
handler, and a write failure propagates out of it to the caller. -/
theorem claim_C5 :
    (∀ (m : TaskManager) (f : String) (w : Bool) (e : PyExn),
      export_attempt m f w = Except.error e →
        m.export_tasks f w = (m, (none, false)))
    ∧ (∀ (m : TaskManager) (f : String) (file : ImportFile) (now : String)
        (m2 : TaskManager) (e : PyExn),
      import_attempt m f file now = (m2, Except.error e) →
        m.import_tasks f file now = (m2, false))
    ∧ (∀ (m : TaskManager) (f : String) (w : Bool),
        ∃ r, m.export_tasks f w = (m, r))
    ∧ (∀ m : TaskManager, m.save_tasks true = Except.error PyExn.ioError) := by
  refine ⟨?_, ?_, ?_, fun _ => rfl⟩
  · intro m f w e h
    rw [TaskManager.export_tasks, h]
  · intro m f file now m2 e h
    rw [TaskManager.import_tasks, h]
  · intro m f w
    rw [TaskManager.export_tasks]
    match export_attempt m f w with
    | Except.ok r => exact ⟨r, rfl⟩
    | Except.error _ => exact ⟨(none, false), rfl⟩

/-- Witness for `claim_C5` at concrete inputs. -/
theorem claim_C5_witness :
    (TaskManager.mk []).export_tasks "json" true
      = (TaskManager.mk [], (none, false))
    ∧ (TaskManager.mk []).import_tasks "json" (ImportFile.jsonBad
        PyExn.parseError) demoNow = (TaskManager.mk [], false) :=
  ⟨claim_C5.1 (TaskManager.mk []) "json" true PyExn.ioError rfl,
   claim_C5.2.1 (TaskManager.mk []) "json"
     (ImportFile.jsonBad PyExn.parseError) demoNow (TaskManager.mk [])
     PyExn.parseError rfl⟩

-- Claim C4: state atomicity on import/export failure.

/-- A well-formed 7-column CSV data row. -/
def c4row : List String := ["5", "Imported", "Активно", "", "", "x", ""]

/-- Claim C4, as stated, is false: when the CSV reader raises after having
yielded a valid data row (e.g. an unterminated quote at end of file),
`import_tasks` returns failure but the row already processed stays in the
collection. -/
theorem claim_C4_cex :
    ((TaskManager.mk []).import_tasks "csv"
        (ImportFile.csvRows [csv_header, c4row] true) demoNow).2 = false
    ∧ ((TaskManager.mk []).import_tasks "csv"
        (ImportFile.csvRows [csv_header, c4row] true) demoNow).1
        ≠ TaskManager.mk [] := by
  decide

/-- Claim C4 (amended): a failing export never touches the collection (the
export path does not mutate `self.tasks` at all), and a failing JSON import
leaves the collection unchanged; but a CSV import that fails mid-read keeps
every row imported before the failure point. -/
theorem claim_C4 :
    (∀ (m : TaskManager) (f : String) (w : Bool),
      (m.export_tasks f w).1 = m)
    ∧ (∀ (m : TaskManager) (file : ImportFile) (now : String),
        (m.import_tasks "json" file now).2 = false →
          (m.import_tasks "json" file now).1 = m)
    ∧ (∀ (m : TaskManager) (hdr : List String) (data : List (List String))
        (now : String),
        m.import_tasks "csv" (ImportFile.csvRows (hdr :: data) true) now
          = (import_rows m now data, false)) := by
  refine ⟨?_, ?_, ?_⟩
  · intro m f w
    rw [TaskManager.export_tasks]
    match export_attempt m f w with
    | Except.ok r => rfl
    | Except.error _ => rfl
  · intro m file now
    have hjson : pyLower "json" = "json" := by decide
    cases file with
    | jsonParsed ds =>
        intro h
        rw [TaskManager.import_tasks, import_attempt, if_pos hjson] at h
        cases h
    | jsonBad e => intro _; rfl
    | csvRows rows errAfter => intro _; rfl
    | csvBad e => intro _; rfl
  · intro m hdr data now
    rfl

/-- Witness for `claim_C4` at concrete inputs. -/
theorem claim_C4_witness :
    ((TaskManager.mk []).import_tasks "json"
        (ImportFile.jsonBad PyExn.ioError) demoNow).1 = TaskManager.mk [] :=
  claim_C4.2.1 (TaskManager.mk []) (ImportFile.jsonBad PyExn.ioError) demoNow
    (by decide)

-- Infrastructure for the import claims: ids assigned by the import loops.

theorem intSeq_succ (g : Int) (n : Nat) :
    (List.range (n + 1)).map (fun (i : Nat) => g + (i : Int))
      = g :: (List.range n).map (fun (i : Nat) => (g + 1) + (i : Int)) := by
  rw [List.range_succ_eq_map, List.map_cons, List.map_map]
  refine congrArg₂ _ (by simp) (List.map_congr_left ?_)
  intro i _
  show g + ((i + 1 : Nat) : Int) = (g + 1) + (i : Int)
  push_cast
  ring

theorem renumberFrom_ids :
    ∀ (l : List Task) (g : Int),
      (renumberFrom g l).map Task.id
        = (List.range l.length).map (fun (i : Nat) => g + (i : Int)) := by
  intro l
  induction l with
  | nil => intro g; rfl
  | cons t ts ih =>
      intro g
      rw [renumberFrom, List.map_cons, List.length_cons, intSeq_succ, ih]

theorem add_tag_id (t : Task) (tag : String) : (t.add_tag tag).id = t.id := by
  rw [Task.add_tag]
  split_ifs <;> rfl

theorem foldl_add_tag_id (l : List String) :
    ∀ (t : Task),
      (l.foldl (fun tk tg => tk.add_tag (pyStrip tg)) t).id = t.id := by
  induction l with
  | nil => intro t; rfl
  | cons x xs ih =>
      intro t
      rw [List.foldl_cons, ih, add_tag_id]

theorem import_row_skip {m : TaskManager} {now : String}
    {row : List String} (h : ¬ 6 ≤ row.length) :
    import_row m now row = m := by
  rw [import_row, if_neg h]

theorem import_row_valid {m : TaskManager} {now : String}
    {row : List String} (h : 6 ≤ row.length) :
    ∃ t2 : Task, import_row m now row = { tasks := m.tasks ++ [t2] }
      ∧ t2.id = m.generate_id := by
  rw [import_row, if_pos h]
  refine ⟨_, rfl, ?_⟩
  rw [foldl_add_tag_id]
  split_ifs <;> rfl

theorem import_rows_ids {now : String} :
    ∀ (rows : List (List String)) (m : TaskManager),
      (import_rows m now rows).tasks.map Task.id
        = m.tasks.map Task.id
          ++ (List.range (rows.countP (fun r => decide (6 ≤ r.length)))).map
              (fun (i : Nat) => m.generate_id + (i : Int)) := by
  intro rows
  induction rows with
  | nil => intro m; simp [import_rows]
  | cons row rest ih =>
      intro m
      rw [import_rows]
      rcases Decidable.em (6 ≤ row.length) with h | h
      · rcases @import_row_valid m now row h with ⟨t2, heq, hid⟩
        rw [heq, ih]
        have hgen : TaskManager.generate_id { tasks := m.tasks ++ [t2] }
            = m.generate_id + 1 := by
          rw [generate_id_append (by rw [hid]), hid]
        have hcount : (row :: rest).countP (fun r => decide (6 ≤ r.length))
            = rest.countP (fun r => decide (6 ≤ r.length)) + 1 := by
          rw [List.countP_cons]
          simp [h]
        rw [hgen, hcount, intSeq_succ]
        have hts : ({ tasks := m.tasks ++ [t2] } : TaskManager).tasks
            = m.tasks ++ [t2] := rfl
        rw [hts, List.map_append, List.append_assoc]
        simp only [List.map_cons, List.map_nil]
        rw [hid]
        rfl
      · rw [import_row_skip h, ih]
        have hcount : (row :: rest).countP (fun r => decide (6 ≤ r.length))
            = rest.countP (fun r => decide (6 ≤ r.length)) := by
          rw [List.countP_cons]
          simp [h]
        rw [hcount]

theorem import_rows_prefix {now : String} :
    ∀ (rows : List (List String)) (m : TaskManager),
      ∃ s, (import_rows m now rows).tasks = m.tasks ++ s := by
  intro rows
  induction rows with
  | nil => intro m; exact ⟨[], by simp [import_rows]⟩
  | cons row rest ih =>
      intro m
      rw [import_rows]
      rcases Decidable.em (6 ≤ row.length) with h | h
      · rcases @import_row_valid m now row h with ⟨t2, heq, _⟩
        rcases ih { tasks := m.tasks ++ [t2] } with ⟨s, hs⟩
        rw [heq]
        exact ⟨[t2] ++ s, by rw [hs, List.append_assoc]⟩
      · rw [import_row_skip h]
        exact ih m

-- Claim C3: import renumbers sequentially from the current next-id.

theorem import_json_eq (m : TaskManager) (ds : List TaskRecord)
    (now : String) :
    m.import_tasks "json" (ImportFile.jsonParsed ds) now
      = ({ tasks := m.tasks
            ++ renumberFrom m.generate_id (ds.map Task.from_dict) }, true) :=
  rfl

def c3m : TaskManager := TaskManager.mk [mkT 1 "a", mkT 2 "b", mkT 3 "c"]

def c3rows : List (List String) :=
  [["", "r1", "Активно", "", "", "", ""], ["", "r2", "Активно", "", "", "", ""]]

/-- Claim C3: both import paths assign every imported task a fresh sequential
id starting at the manager's current next-id and append, leaving the original
tasks in place: the JSON path renumbers explicitly, the CSV path gets the
same ids through repeated `add_task`; in the claim's scenario (ids 1..3 plus
a 2-row CSV) the imported tasks get ids 4 and 5. -/
theorem claim_C3 :
    (∀ (m : TaskManager) (ds : List TaskRecord) (now : String),
      (m.import_tasks "json" (ImportFile.jsonParsed ds) now).2 = true
      ∧ ((m.import_tasks "json" (ImportFile.jsonParsed ds) now).1).tasks.map
          Task.id
        = m.tasks.map Task.id
          ++ (List.range ds.length).map
              (fun (i : Nat) => m.generate_id + (i : Int))
      ∧ ((m.import_tasks "json" (ImportFile.jsonParsed ds) now).1).tasks.take
          m.tasks.length = m.tasks)
    ∧ (∀ (m : TaskManager) (rows : List (List String)) (now : String),
      (import_rows m now rows).tasks.map Task.id
        = m.tasks.map Task.id
          ++ (List.range (rows.countP (fun r => decide (6 ≤ r.length)))).map
              (fun (i : Nat) => m.generate_id + (i : Int))
      ∧ (import_rows m now rows).tasks.take m.tasks.length = m.tasks)
    ∧ ((c3m.import_tasks "csv"
          (ImportFile.csvRows (csv_header :: c3rows) false) demoNow).2 = true
        ∧ ((c3m.import_tasks "csv"
          (ImportFile.csvRows (csv_header :: c3rows) false) demoNow).1).tasks.map
            Task.id = [1, 2, 3, 4, 5]
        ∧ ((c3m.import_tasks "csv"
          (ImportFile.csvRows (csv_header :: c3rows) false) demoNow).1).tasks.take
            3 = c3m.tasks) := by
  refine ⟨?_, ?_, by decide⟩
  · intro m ds now
    rw [import_json_eq]
    refine ⟨rfl, ?_, ?_⟩
    · show (m.tasks ++ renumberFrom m.generate_id (ds.map Task.from_dict)).map
        Task.id = _
      rw [List.map_append, renumberFrom_ids, List.length_map]
    · show (m.tasks ++ renumberFrom m.generate_id (ds.map Task.from_dict)).take
        m.tasks.length = m.tasks
      exact List.take_left m.tasks _
  · intro m rows now
    refine ⟨import_rows_ids rows m, ?_⟩
    rcases import_rows_prefix rows m with ⟨s, hs⟩
    rw [hs]
    exact List.take_left m.tasks s

-- Claim C2: round trips.

/-- Fields that survive the truthiness test of `to_dict` / the `or ""` of the
CSV writer: an optional string that is not the (falsy) empty string. -/
def normalFields (t : Task) : Prop :=
  t.priority ≠ some "" ∧ t.due_date ≠ some ""

/-- Tags that survive the CSV join/split/strip/add_tag pipeline: pairwise
distinct, nonempty, already stripped, comma-free. -/
def goodTags (t : Task) : Prop :=
  t.tags.Nodup
    ∧ ∀ tg ∈ t.tags, tg ≠ "" ∧ pyStrip tg = tg ∧ ∀ c ∈ tg.data, c ≠ ','

instance (t : Task) : Decidable (normalFields t) :=
  inferInstanceAs (Decidable (t.priority ≠ some "" ∧ t.due_date ≠ some ""))

instance (t : Task) : Decidable (goodTags t) :=
  inferInstanceAs (Decidable (t.tags.Nodup
    ∧ ∀ tg ∈ t.tags, tg ≠ "" ∧ pyStrip tg = tg ∧ ∀ c ∈ tg.data, c ≠ ','))

theorem truthy_norm {o : Option String} (h : o ≠ some "") :
    (if pyTruthy o then o else none) = o := by
  cases o with
  | none => rfl
  | some s =>
      have hs : s ≠ "" := fun he => h (by rw [he])
      simp [pyTruthy, hs]

theorem from_to_dict {t : Task} (h : normalFields t) :
    Task.from_dict (Task.to_dict t) = t := by
  rcases h with ⟨hp, hd⟩
  cases t with
  | mk id title completed created_at priority due_date tags =>
      simp only [Task.to_dict, Task.from_dict]
      rw [truthy_norm hp, truthy_norm hd]

theorem save_data_roundtrip {m : TaskManager}
    (h : ∀ t ∈ m.tasks, normalFields t) :
    (save_data m).map Task.from_dict = m.tasks := by
  rw [save_data, List.map_map]
  have he : List.map (Task.from_dict ∘ Task.to_dict) m.tasks
      = List.map id m.tasks :=
    List.map_congr_left (fun t ht => from_to_dict (h t ht))
  rw [he, List.map_id]

theorem optCell_roundtrip {o : Option String} (h : o ≠ some "") :
    (if o.getD "" = "" then none else some (o.getD "")) = o := by
  cases o with
  | none => simp
  | some s =>
      have hs : s ≠ "" := fun he => h (by rw [he])
      simp [hs]

theorem foldl_add_tag_full :
    ∀ (l : List String) (t : Task), (∀ x ∈ l, x ≠ "") →
      (∀ x ∈ l, pyStrip x = x) → (t.tags ++ l).Nodup →
      l.foldl (fun tk tg => tk.add_tag (pyStrip tg)) t
        = { t with tags := t.tags ++ l } := by
  intro l
  induction l with
  | nil => intro t _ _ _; cases t; simp
  | cons x xs ih =>
      intro t hne hstrip hnd
      rw [List.foldl_cons]
      have hx : pyStrip x = x := hstrip x (List.mem_cons_self x xs)
      rw [hx]
      rcases List.nodup_append.mp hnd with ⟨_, _, hdisj⟩
      have hxmem : x ∉ t.tags := fun hm => hdisj hm (List.mem_cons_self x xs)
      have hadd : t.add_tag x = { t with tags := t.tags ++ [x] } := by
        rw [Task.add_tag,
          if_pos ⟨hne x (List.mem_cons_self x xs), hxmem⟩]
      rw [hadd]
      rw [ih { t with tags := t.tags ++ [x] }
        (fun y hy => hne y (List.mem_cons_of_mem x hy))
        (fun y hy => hstrip y (List.mem_cons_of_mem x hy))
        (by rw [List.append_assoc]; exact hnd)]
      simp

theorem string_data_ne_nil {s : String} (h : s ≠ "") : s.data ≠ [] := by
  intro hd
  apply h
  cases s with
  | mk d => cases hd; rfl

theorem status_if (tcomp : Bool) (a b : Task) :
    (if ((if tcomp = true then "Виконано" else "Активно") = "Виконано")
      then a else b) = if tcomp = true then a else b := by
  cases tcomp <;> simp

theorem mark_if (b : Bool) (u : Task) (hu : u.completed = false) :
    (if b = true then u.mark_completed else u) = { u with completed := b } := by
  cases b
  · rw [if_neg (by decide)]
    cases u with
    | mk i ti c cr p d tg => cases hu; rfl
  · rw [if_pos rfl]
    rfl

/-- One exported CSV row re-imports as the same task with a fresh id and the
import-time `created_at`. -/
theorem import_row_csv {m : TaskManager} {now : String} {t : Task}
    (hnf : normalFields t) (hgt : goodTags t) :
    import_row m now (csv_row t)
      = { tasks := m.tasks
          ++ [{ t with id := m.generate_id, created_at := now }] } := by
  rcases hnf with ⟨hp, hd⟩
  rcases hgt with ⟨hnd, htags⟩
  rcases t with ⟨tid, ttitle, tcomp, tcreated, tprio, tdue, ttags⟩
  dsimp only at hp hd hnd htags
  rw [import_row, if_pos (by simp [csv_row])]
  simp only [csv_row, List.getD_cons_succ, List.getD_cons_zero]
  rw [optCell_roundtrip hp, optCell_roundtrip hd]
  simp only [TaskManager.add_task]
  rw [status_if, mark_if tcomp _ rfl]
  cases ttags with
  | nil =>
      rw [if_neg (by simp [pyJoin, joinCh])]
      simp
  | cons tg rest =>
      have htg := htags tg (List.mem_cons_self tg rest)
      rw [if_pos ⟨by simp, pyJoin_ne_empty (string_data_ne_nil htg.1)⟩]
      rw [pySplit_pyJoin (by simp) (fun s hs => (htags s hs).2.2)]
      rw [foldl_add_tag_full _ _
        (fun s hs => (htags s hs).1)
        (fun s hs => (htags s hs).2.1)
        (by simpa using hnd)]
      simp

/-- What a CSV export/import round trip is expected to produce from the
exported tasks: same tasks, ids renumbered sequentially from `g`, and
`created_at` stamped with the import time. -/
def csvRound (g : Int) (now : String) : List Task → List Task
  | [] => []
  | t :: ts => { t with id := g, created_at := now } :: csvRound (g + 1) now ts

theorem import_rows_csv {now : String} :
    ∀ (l : List Task) (m : TaskManager),
      (∀ t ∈ l, normalFields t ∧ goodTags t) →
      import_rows m now (l.map csv_row)
        = { tasks := m.tasks ++ csvRound m.generate_id now l } := by
  intro l
  induction l with
  | nil => intro m _; cases m; simp [import_rows, csvRound]
  | cons t ts ih =>
      intro m h
      have ht := h t (List.mem_cons_self t ts)
      rw [List.map_cons, import_rows, import_row_csv ht.1 ht.2]
      rw [ih _ (fun u hu => h u (List.mem_cons_of_mem t hu))]
      have hid : ({ t with id := m.generate_id, created_at := now } : Task).id
          = m.generate_id := rfl
      have hgen : TaskManager.generate_id
          { tasks := m.tasks
            ++ [{ t with id := m.generate_id, created_at := now }] }
          = m.generate_id + 1 := by
        rw [generate_id_append (by rw [hid])]
      rw [hgen]
      show ({ tasks := (m.tasks
          ++ [{ t with id := m.generate_id, created_at := now }])
          ++ csvRound (m.generate_id + 1) now ts } : TaskManager) = _
      rw [List.append_assoc]
      rfl

theorem import_csv_eq (m2 : TaskManager) (hdr : List String)
    (data : List (List String)) (now : String) :
    m2.import_tasks "csv" (ImportFile.csvRows (hdr :: data) false) now
      = (import_rows m2 now data, true) := rfl

/-- A task whose `priority` is the empty string (legal for `add_task`, which
never validates) — the truthiness test in `to_dict` drops the key. -/
def c2bad : Task := { mkT 1 "x" with priority := some "" }

def c2src : TaskManager := TaskManager.mk [mkT 1 "a"]

/-- Claim C2, as stated, is false.  (1) The JSON save/load pair does not
restore every collection exactly: a task with an empty-string `priority`
comes back with no priority at all.  (2) The CSV export/import round trip
does not preserve `created_at` even modulo id renumbering: the re-imported
task carries the import time, not the exported timestamp. -/
theorem claim_C2_cex :
    ((TaskManager.mk [c2bad]).load_tasks
        (LoadOutcome.content (save_data (TaskManager.mk [c2bad])))
      = Except.ok (TaskManager.mk [{ c2bad with priority := none }], true))
    ∧ (TaskManager.mk [{ c2bad with priority := none }] ≠ TaskManager.mk [c2bad])
    ∧ (((TaskManager.mk []).import_tasks "csv"
        (ImportFile.csvRows (csv_rows c2src) false)
        "2030-01-01 00:00:00").1).tasks.map Task.created_at
        = ["2030-01-01 00:00:00"]
    ∧ (c2src.tasks.map Task.created_at ≠ ["2030-01-01 00:00:00"]) := by
  refine ⟨rfl, by decide, by decide, by decide⟩

/-- Claim C2 (amended): for collections whose optional fields are never the
empty string, the JSON save/load pair restores the collection exactly (same
tasks, same fields, same order); JSON export/import appends the same tasks
with ids renumbered sequentially from the importing manager's next-id; and
CSV export/import (additionally assuming tags that are distinct, nonempty,
stripped and comma-free) restores title, completion, priority, due date and
tags, renumbers ids, but stamps `created_at` with the import time instead of
preserving it. -/
theorem claim_C2 :
    (∀ (m m0 : TaskManager), (∀ t ∈ m.tasks, normalFields t) →
      m0.load_tasks (LoadOutcome.content (save_data m)) = Except.ok (m, true))
    ∧ (∀ (m m2 : TaskManager) (now : String),
        (∀ t ∈ m.tasks, normalFields t) →
      m2.import_tasks "json" (ImportFile.jsonParsed (save_data m)) now
        = ({ tasks := m2.tasks ++ renumberFrom m2.generate_id m.tasks }, true))
    ∧ (∀ (m m2 : TaskManager) (now : String),
        (∀ t ∈ m.tasks, normalFields t ∧ goodTags t) →
      m2.import_tasks "csv" (ImportFile.csvRows (csv_rows m) false) now
        = ({ tasks := m2.tasks ++ csvRound m2.generate_id now m.tasks },
            true)) := by
  refine ⟨?_, ?_, ?_⟩
  · intro m m0 h
    show Except.ok (({ tasks := (save_data m).map Task.from_dict }
        : TaskManager), true) = _
    rw [save_data_roundtrip h]
  · intro m m2 now h
    rw [import_json_eq, save_data_roundtrip h]
  · intro m m2 now h
    rw [csv_rows, import_csv_eq, import_rows_csv m.tasks m2 h]

/-- Witness for `claim_C2` at concrete inputs. -/
theorem claim_C2_witness :
    (TaskManager.mk []).load_tasks (LoadOutcome.content (save_data c2src))
      = Except.ok (c2src, true) :=
  claim_C2.1 c2src (TaskManager.mk []) (by decide)

-- Claim C6: sorting by due date.

def c6noDue : Task := mkT 1 "nodue"

def c6due : Task := { mkT 2 "due" with due_date := some "2024-01-01" }

/-- Claim C6, as stated, is false for `reverse=True`: the sentinel
`"9999-99-99"` is the largest key, so a descending sort puts the task
without a due date first, not after the dated tasks. -/
theorem claim_C6_cex :
    (TaskManager.mk []).sort_tasks (some [c6noDue, c6due]) "due_date" true
      = [c6noDue, c6due]
    ∧ c6noDue.due_date = none
    ∧ c6due.due_date = some "2024-01-01" := by
  decide

theorem dateShape_ne_empty {d : String} (h : dateShape d = true) : d ≠ "" := by
  intro he
  rw [he] at h
  exact absurd h (by decide)

/-- Claim C6 (amended): for task lists whose present due dates have
`YYYY-MM-DD` shape, `sort_tasks(by="due_date")` permutes the input and orders
it by the lexicographic key with sentinel `"9999-99-99"` substituted for
absent (or empty) due dates; consequently every task without a due date
comes after all tasks with one when `reverse` is false, and before all of
them when `reverse` is true. -/
theorem claim_C6 :
    ∀ (m : TaskManager) (ts : List Task),
      (∀ t ∈ ts, ∀ d : String, t.due_date = some d → dateShape d = true) →
      (List.Perm (m.sort_tasks (some ts) "due_date" false) ts
      ∧ List.Pairwise (fun a b => strLeB (dueKey a) (dueKey b) = true)
          (m.sort_tasks (some ts) "due_date" false)
      ∧ List.Pairwise
          (fun a b => b.due_date.isSome = true → a.due_date.isSome = true)
          (m.sort_tasks (some ts) "due_date" false)
      ∧ List.Perm (m.sort_tasks (some ts) "due_date" true) ts
      ∧ List.Pairwise
          (fun a b => a.due_date.isSome = true → b.due_date.isSome = true)
          (m.sort_tasks (some ts) "due_date" true)) := by
  intro m ts hshape
  have hsortF : m.sort_tasks (some ts) "due_date" false
      = insertionSortB (fun a b => strLeB (dueKey a) (dueKey b)) ts := rfl
  have hsortT : m.sort_tasks (some ts) "due_date" true
      = insertionSortB (fun a b => strLeB (dueKey b) (dueKey a)) ts := rfl
  have hlt : ∀ t ∈ ts, t.due_date.isSome = true →
      strLtB (dueKey t) "9999-99-99" = true := by
    intro t ht hsome
    cases hdd : t.due_date with
    | none => rw [hdd] at hsome; cases hsome
    | some d =>
        have hd := hshape t ht d hdd
        have hne : d ≠ "" := dateShape_ne_empty hd
        have hk : dueKey t = d := by simp [dueKey, hdd, hne]
        rw [hk]
        exact dateShape_lt_sentinel hd
  have hnoneKey : ∀ t : Task, t.due_date.isSome = false →
      dueKey t = "9999-99-99" := by
    intro t h
    cases hdd : t.due_date with
    | none => simp [dueKey, hdd]
    | some d => rw [hdd] at h; cases h
  have htot : ∀ a b : Task,
      strLeB (dueKey a) (dueKey b) = true
        ∨ strLeB (dueKey b) (dueKey a) = true :=
    fun a b => strLeB_total _ _
  have htrans : ∀ a b c : Task,
      strLeB (dueKey a) (dueKey b) = true →
      strLeB (dueKey b) (dueKey c) = true →
      strLeB (dueKey a) (dueKey c) = true :=
    fun _ _ _ h1 h2 => strLeB_trans h1 h2
  have hpermF :=
    insertionSortB_perm (fun a b => strLeB (dueKey a) (dueKey b)) ts
  have hpwF := pairwise_insertionSortB htot htrans ts
  have hpermT :=
    insertionSortB_perm (fun a b => strLeB (dueKey b) (dueKey a)) ts
  have hpwT := pairwise_insertionSortB (fun a b => htot b a)
    (fun a b c h1 h2 => htrans c b a h2 h1) ts
  rw [hsortF, hsortT]
  refine ⟨hpermF, hpwF, ?_, hpermT, ?_⟩
  · refine List.Pairwise.imp_of_mem ?_ hpwF
    intro a b ha hb hr hsb
    have hbts : b ∈ ts := hpermF.mem_iff.mp hb
    by_contra hsa
    have hsa2 : a.due_date.isSome = false := by
      cases hx : a.due_date.isSome
      · rfl
      · exact absurd hx hsa
    have hka := hnoneKey a hsa2
    have hkb := hlt b hbts hsb
    rw [hka] at hr
    unfold strLeB at hr
    rw [hkb] at hr
    cases hr
  · refine List.Pairwise.imp_of_mem ?_ hpwT
    intro a b ha hb hr hsa
    have hats : a ∈ ts := hpermT.mem_iff.mp ha
    by_contra hsb
    have hsb2 : b.due_date.isSome = false := by
      cases hx : b.due_date.isSome
      · rfl
      · exact absurd hx hsb
    have hkb := hnoneKey b hsb2
    have hka := hlt a hats hsa
    rw [hkb] at hr
    unfold strLeB at hr
    rw [hka] at hr
    cases hr

/-- Witness for `claim_C6` at concrete inputs. -/
theorem claim_C6_witness :
    List.Perm
      ((TaskManager.mk []).sort_tasks (some [c6noDue]) "due_date" false)
      [c6noDue] :=
  (claim_C6 (TaskManager.mk []) [c6noDue]
    (by
      intro t ht d hd
      simp only [List.mem_singleton] at ht
      subst ht
      exact Option.noConfusion hd)).1

-- Claim C10: unrecognized priorities rank 0.

/-- The normalization that replaces an unrecognized priority label by
"no priority"; claim C10 says sorting cannot tell the difference. -/
def normPriority (t : Task) : Task :=
  match t.priority with
  | none => t
  | some p =>
      if p = "високий" ∨ p = "середній" ∨ p = "низький" then t
      else { t with priority := none }

theorem priority_order_norm (t : Task) :
    priority_order (normPriority t).priority = priority_order t.priority := by
  cases hp : t.priority with
  | none => simp [normPriority, hp]
  | some p =>
      simp only [normPriority, hp]
      split_ifs with h
      · rw [hp]
      · push_neg at h
        simp [priority_order, h.1, h.2.1, h.2.2]

theorem pySorted_map {le : Task → Task → Bool} {f : Task → Task}
    (hf : ∀ a b, le (f a) (f b) = le a b) (r : Bool) (l : List Task) :
    pySorted le r (l.map f) = (pySorted le r l).map f := by
  unfold pySorted
  split_ifs
  · exact insertionSortB_map (fun a b => hf b a) l
  · exact insertionSortB_map hf l

/-- Claim C10: in `sort_tasks(by="priority")`, every priority value other
than the three recognized labels ranks 0, the same as an absent priority, so
replacing unrecognized labels by "no priority" commutes with sorting for
both values of `reverse` — such tasks sort together with no-priority
tasks in every ordering. -/
theorem claim_C10 :
    (∀ p : String, p ≠ "високий" → p ≠ "середній" → p ≠ "низький" →
      priority_order (some p) = 0 ∧ priority_order none = 0)
    ∧ (∀ (m : TaskManager) (ts : List Task) (r : Bool),
      m.sort_tasks (some (ts.map normPriority)) "priority" r
        = (m.sort_tasks (some ts) "priority" r).map normPriority) := by
  constructor
  · intro p h1 h2 h3
    exact ⟨by simp [priority_order, h1, h2, h3], rfl⟩
  · intro m ts r
    have hsort : ∀ l : List Task, m.sort_tasks (some l) "priority" r
        = pySorted (fun a b =>
            decide (priority_order a.priority ≤ priority_order b.priority))
          r l := fun l => rfl
    rw [hsort, hsort]
    refine pySorted_map (fun a b => ?_) r ts
    rw [priority_order_norm a, priority_order_norm b]

/-- Witness for `claim_C10` at concrete inputs. -/
theorem claim_C10_witness :
    priority_order (some "urgent") = 0 ∧ priority_order none = 0 :=
  claim_C10.1 "urgent" (by decide) (by decide) (by decide)

end TaskApp
